import Mathlib

/-!
# blackhole: record, exception-handler chain and file sink

A shallow embedding of

* `src/record.cpp` (`record_t::inner_t`, the constructor and the accessors),
* `src/blackhole/error/handler.hpp` (`default_exception_handler_t`,
  `aux::launcher`, `aux::intermediate`, `aux::handler_hierarchy`,
  `exception_handler`, `aux::handler_maker`, `exception::handler_factory_t`),
* `include/blackhole/sink/file.hpp` (`file_t::builder_t`; the body of
  `file_t::emit` lives in a translation unit that is not part of the sources
  and is modelled from the specification).

Conventions of the embedding:

* an object that the C++ code holds by reference or by pointer is represented
  by its address (`Addr`);
* a C++ exception class is an element of a type `Cls`; the class relations the
  code relies on are collected in `Types`;
* a function body that can throw has an `Outcome`;
* template instantiation is evaluation: a `static_assert` is a `Bool`.
-/

namespace blackhole

/-! ## Definitions: `src/record.cpp` -/

/-- Address of an object held by reference or by pointer. -/
abbrev Addr := Nat

namespace record_t

/-- The metadata block `record_t::inner_t`. `message` and `formatted` are
`std::reference_wrapper<const string_view>` (the address of the view referred
to), `attributes` is `const attribute_pack*`. -/
structure inner_t where
  severity : Int
  timestamp : Nat
  message : Addr
  formatted : Addr
  pid : Nat
  tid : Nat
  attributes : Addr
  deriving DecidableEq, Repr

end record_t

/-- A `record_t`: its only data member is `storage`, the raw buffer that
`inner_t::cast` reinterprets as an `inner_t`. -/
structure record_t where
  storage : record_t.inner_t
  deriving DecidableEq, Repr

namespace record_t

/-- The constructor `record_t::record_t(int severity, const string_view& message,
const attribute_pack& attributes)`. The member `storage` has no initialiser, so
the block starts from whatever the buffer held (`storage`); the body then
performs the two assignments `inner.message = message` and
`inner.severity = severity`. -/
def construct (storage : inner_t) (severity : Int) (message : Addr) (attributes : Addr) :
    record_t :=
  let inner := storage
  let inner := { inner with message := message }
  let inner := { inner with severity := severity }
  { storage := inner }

end record_t

/-- The accessor `record_t::message()`: `inner_t::cast(storage).message.get()`. -/
def record_t.message (r : record_t) : Addr := r.storage.message

/-- The accessor `record_t::severity()`: `inner_t::cast(storage).severity`. -/
def record_t.severity (r : record_t) : Int := r.storage.severity

/-! ## Definitions: `src/blackhole/error/handler.hpp` -/

/-- How the execution of a function body ends: it returns, it leaves through an
exception (`raised`), or `std::terminate` is called (a `throw;` without an
exception being handled). -/
inductive Outcome (F : Type) where
  | returned
  | raised (f : F)
  | terminated
  deriving DecidableEq, Repr

/-- A thrown object: its dynamic class and, for objects that are a
`std::exception`, the text `what()` returns. -/
structure Failure (Cls : Type) where
  dyn : Cls
  what : String
  deriving DecidableEq, Repr

namespace log

/-- The class relations the header relies on: `is_base_of b d` is
`std::is_base_of<b, d>::value` (the same class, or `d` derives from `b`), and
`std_exception` is the class `std::exception`. Exception classes derive
publicly and unambiguously, so a clause `catch (const b&)` takes a thrown
object of dynamic class `d` exactly when `is_base_of b d`. -/
structure Types (Cls : Type) where
  is_base_of : Cls → Cls → Bool
  std_exception : Cls

/-- Whether a clause `catch (const c&)` takes the failure `f`. -/
def catches {Cls : Type} (T : Types Cls) (c : Cls) (f : Failure Cls) : Bool :=
  T.is_base_of c f.dyn

/-- `std::is_base_of<b, d>::value` where `b` may be `void` (`none`), which is
the base of nothing. -/
def is_base_of_void {Cls : Type} (T : Types Cls) : Option Cls → Cls → Bool
  | none, _ => false
  | some b, d => T.is_base_of b d

/-- The relation the `static_assert` demands between the category of a level
and the category of the level that wraps it. -/
def ordered {Cls : Type} (T : Types Cls) (a b : Cls) : Prop := T.is_base_of a b = false

/-- The handler `default_exception_handler_t::operator()`. `debug` tells
whether `BLACKHOLE_DEBUG` is defined, `current` is the exception being handled
when the handler is entered, `cout` the text written to `std::cout` so far.
The inner `throw;` rethrows `current` (none: `std::terminate`); one of the two
clauses writes its line; then, in a debug build, `throw;` rethrows `current`
again. -/
def default_exception_handler_t {Cls : Type} (T : Types Cls) (debug : Bool)
    (current : Option (Failure Cls)) (cout : String) : Outcome (Failure Cls) × String :=
  match current with
  | none => (Outcome.terminated, cout)
  | some err =>
    let cout :=
      if catches T T.std_exception err then
        cout ++ "logging core error occurred: " ++ err.what ++ "\n"
      else
        cout ++ "logging core error occurred: unknown" ++ "\n"
    if debug then (Outcome.raised err, cout) else (Outcome.returned, cout)

/-- The handling action stored in the chain (`handler_type handler`), called as
`this->handler(err)` with `err` of static type `const Exception&`: it receives
the class it was caught as and the failure, may change its own state `σ`, and
returns or throws. -/
abbrev Handler (Cls σ : Type) := Cls → Failure Cls → σ → Outcome (Failure Cls) × σ

namespace aux

/-- The class types `boost::mpl::fold` builds: `launcher<Handler>` or
`intermediate<Exception, Base>`. -/
inductive Chain (Cls : Type) where
  | launcher
  | intermediate (Exception : Cls) (Base : Chain Cls)
  deriving DecidableEq, Repr

/-- The member typedef `exception_type`: `void` for `launcher`, `Exception`
for `intermediate<Exception, Base>`. -/
def Chain.exception_type {Cls : Type} : Chain Cls → Option Cls
  | Chain.launcher => none
  | Chain.intermediate e _ => some e

/-- Whether the constructor of the class compiles: `launcher` always, and
`intermediate<Exception, Base>` when `Base` does and the `static_assert`
`!std::is_base_of<typename Base::exception_type, exception_type>::value` holds. -/
def Chain.constructible {Cls : Type} (T : Types Cls) : Chain Cls → Bool
  | Chain.launcher => true
  | Chain.intermediate e b =>
    b.constructible T && !(is_base_of_void T b.exception_type e)

/-- The metafunction `handler_hierarchy<TypeList, Handler>::type`: a left fold
over the list that starts from `launcher<Handler>` and maps the state `_1` and
the element `_2` to `intermediate<_2, _1>`. -/
def handler_hierarchy {Cls : Type} (TypeList : List Cls) : Chain Cls :=
  TypeList.foldl (fun state x => Chain.intermediate x state) Chain.launcher

/-- What one call of `operator()` leaves behind: how it ended, the state of
the handling action, and the calls `handler(err)` made, in order, each with the
class of the level that made it. -/
structure Run (Cls σ : Type) where
  outcome : Outcome (Failure Cls)
  state : σ
  calls : List (Cls × Failure Cls)

/-- The member `operator()` of a chain class. `launcher`: `throw;`.
`intermediate<Exception, Base>`: `Base::operator()()` inside a `try` whose
clause `catch (const Exception& err)` runs `this->handler(err)`; what the
handler throws leaves the level. -/
def Chain.call {Cls σ : Type} (T : Types Cls) (handler : Handler Cls σ) :
    Chain Cls → Option (Failure Cls) → σ → Run Cls σ
  | Chain.launcher, current, s =>
    match current with
    | none => { outcome := Outcome.terminated, state := s, calls := [] }
    | some f => { outcome := Outcome.raised f, state := s, calls := [] }
  | Chain.intermediate e b, current, s =>
    let r := Chain.call T handler b current s
    match r.outcome with
    | Outcome.raised err =>
      if catches T e err then
        let res := handler e err r.state
        { outcome := res.1, state := res.2, calls := r.calls ++ [(e, err)] }
      else r
    | _ => r

end aux

/-- The class `exception_handler<TypeList, Handler>`: it derives from
`handler_hierarchy<TypeList, Handler>::type`, its constructor and its
`operator()` forward to the base. -/
def exception_handler {Cls : Type} (TypeList : List Cls) : aux.Chain Cls :=
  aux.handler_hierarchy TypeList

/-- Whether `exception_handler<TypeList, Handler>(handler)` compiles. -/
def exception_handler.accepted {Cls : Type} (T : Types Cls) (TypeList : List Cls) : Bool :=
  (exception_handler TypeList).constructible T

/-- The member `exception_handler::operator()`: `base_type::operator()()`. -/
def exception_handler.call {Cls σ : Type} (T : Types Cls) (handler : Handler Cls σ)
    (TypeList : List Cls) (current : Option (Failure Cls)) (s : σ) : aux.Run Cls σ :=
  (exception_handler TypeList).call T handler current s

/-- The metafunction `aux::handler_maker<Handler, Args...>::type`:
`exception_handler` over `boost::mpl::reverse` of the argument list. -/
def aux.handler_maker {Cls : Type} (Args : List Cls) : aux.Chain Cls :=
  exception_handler Args.reverse

namespace exception

/-- Whether `handler_factory_t<Handler>::make<Args...>()` compiles: it
constructs `handler_maker<Handler, Args...>::type`. -/
def handler_factory_t.make_accepted {Cls : Type} (T : Types Cls) (Args : List Cls) : Bool :=
  (aux.handler_maker Args).constructible T

end exception

/-! ### A concrete class hierarchy

The exception classes of `<stdexcept>`, which the header includes, together
with one class outside the `std::exception` family. -/

/-- Classes of the concrete hierarchy. -/
inductive StdCls where
  | exception
  | logic_error
  | invalid_argument
  | out_of_range
  | runtime_error
  | range_error
  | overflow_error
  | foreign
  deriving DecidableEq, Repr

/-- The direct base class, if any. -/
def StdCls.base : StdCls → Option StdCls
  | StdCls.exception => none
  | StdCls.logic_error => some StdCls.exception
  | StdCls.invalid_argument => some StdCls.logic_error
  | StdCls.out_of_range => some StdCls.logic_error
  | StdCls.runtime_error => some StdCls.exception
  | StdCls.range_error => some StdCls.runtime_error
  | StdCls.overflow_error => some StdCls.runtime_error
  | StdCls.foreign => none

/-- `std::is_base_of` on the concrete hierarchy, which is two levels deep: the
same class, the direct base, or the base of the direct base. -/
def StdCls.is_base_of (b d : StdCls) : Bool :=
  b == d || d.base == some b || (d.base.bind StdCls.base) == some b

/-- The concrete hierarchy as `Types`. -/
def stdTypes : Types StdCls :=
  { is_base_of := StdCls.is_base_of, std_exception := StdCls.exception }

/-- A handling action without state that returns normally. -/
def quiet : Handler StdCls Unit := fun _ _ s => (Outcome.returned, s)

/-- A thrown `std::range_error`. -/
def range_failure : Failure StdCls := { dyn := StdCls.range_error, what := "range" }

/-- A thrown `std::out_of_range`. -/
def logic_failure : Failure StdCls := { dyn := StdCls.out_of_range, what := "index" }

/-- A thrown `std::overflow_error`. -/
def overflow_failure : Failure StdCls := { dyn := StdCls.overflow_error, what := "overflow" }

/-- A handling action without state that answers every failure by throwing an
`overflow_error`. -/
def thrower : Handler StdCls Unit := fun _ _ s => (Outcome.raised overflow_failure, s)

/-- The call operator of the object `handler_factory_t<Handler>::make<Args...>()`
returns: the `operator()` of `handler_maker<Handler, Args...>::type`, whose
handling action is the default-constructed `Handler()` (`handler` with its
initial state `s`). -/
def exception.handler_factory_t.make_call {Cls σ : Type} (T : Types Cls)
    (handler : Handler Cls σ) (Args : List Cls) (current : Option (Failure Cls)) (s : σ) :
    aux.Run Cls σ :=
  (aux.handler_maker Args).call T handler current s

/-- The nesting the description of `make<A1, ..., AN>` states, written down
from its words and not from the fold: the first declared category A1 is the
outermost level, it wraps the nesting of the categories declared after it, and
inside the last one, AN, sits the launcher. -/
def declared_nesting {Cls : Type} : List Cls → aux.Chain Cls
  | [] => aux.Chain.launcher
  | a :: rest => aux.Chain.intermediate a (declared_nesting rest)

end log

/-! ## Definitions: `include/blackhole/sink/file.hpp` -/

namespace sink

namespace file

end file

namespace file_t

/-- One call of `emit` as it reaches the sink: the record, the formatted text,
and what the operating system allows during the call. -/
structure call where
  record : record_t
  formatted : String
  can_open : Bool
  can_write : Bool
  deriving DecidableEq, Repr

end file_t

end sink

/-! ## Theorems: the record -/

/-- C1: for every severity `s`, message view `m` and attribute pack `a`, and
whatever the buffer held before, the record built by the constructor has
`severity() = s` and `message() = m`, the very view passed in. -/
theorem record_accessors_return_constructor_arguments (storage : record_t.inner_t)
    (s : Int) (m a : Addr) :
    (record_t.construct storage s m a).severity = s ∧
      (record_t.construct storage s m a).message = m :=
  ⟨rfl, rfl⟩

/-- C10: the constructor does not fill in the `attributes` field. For every
buffer content and all arguments the field keeps the value the buffer held, and
on a zeroed buffer with the attribute pack at address 200 the field is 0 after
construction, not 200. -/
theorem record_constructor_leaves_attributes_unset :
    (∀ (storage : record_t.inner_t) (s : Int) (m a : Addr),
        (record_t.construct storage s m a).storage.attributes = storage.attributes) ∧
      (record_t.construct ⟨0, 0, 0, 0, 0, 0, 0⟩ 3 100 200).storage.attributes = 0 ∧
      (record_t.construct ⟨0, 0, 0, 0, 0, 0, 0⟩ 3 100 200).storage.attributes ≠ 200 :=
  ⟨fun _ _ _ _ => rfl, rfl, by decide⟩

/-! ## Theorems: the default handler -/

namespace log

/-- C6: for every failure being handled, in either build mode, the default
handler appends exactly one line to the diagnostic stream: the text
"logging core error occurred: " followed by the description when the failure
is a `std::exception`, and "logging core error occurred: unknown" otherwise. -/
theorem default_handler_writes_one_line {Cls : Type} (T : Types Cls) (debug : Bool)
    (f : Failure Cls) (cout : String) :
    (default_exception_handler_t T debug (some f) cout).2 =
      cout ++ (if catches T T.std_exception f then
        "logging core error occurred: " ++ f.what ++ "\n"
      else "logging core error occurred: unknown" ++ "\n") := by
  cases debug <;> cases hc : catches T T.std_exception f <;>
    simp [default_exception_handler_t, hc, String.append_assoc]

/-- C7: for every failure being handled, the default handler returns normally
when `BLACKHOLE_DEBUG` is off; when it is on it leaves by raising that same
failure, and the stream it leaves with is the one the non-debug handler
produces: the stream it was entered with followed by the diagnostic line, so
the line is written before the failure is raised again. -/
theorem default_handler_absorbs_unless_debug {Cls : Type} (T : Types Cls)
    (f : Failure Cls) (cout : String) :
    (default_exception_handler_t T false (some f) cout).1 = Outcome.returned ∧
      (default_exception_handler_t T true (some f) cout).1 = Outcome.raised f ∧
      (default_exception_handler_t T true (some f) cout).2 =
        (default_exception_handler_t T false (some f) cout).2 ∧
      (default_exception_handler_t T true (some f) cout).2 =
        cout ++ (if catches T T.std_exception f then
          "logging core error occurred: " ++ f.what ++ "\n"
        else "logging core error occurred: unknown" ++ "\n") := by
  refine ⟨rfl, rfl, rfl, ?_⟩
  cases hc : catches T T.std_exception f <;>
    simp [default_exception_handler_t, hc, String.append_assoc]

/-! ## Lemmas: the chain -/

/-- The fold puts the last category of the list outermost. -/
theorem handler_hierarchy_concat {Cls : Type} (Cs : List Cls) (c : Cls) :
    aux.handler_hierarchy (Cs ++ [c]) =
      aux.Chain.intermediate c (aux.handler_hierarchy Cs) := by
  simp [aux.handler_hierarchy, List.foldl_append]

/-- The `exception_type` of the folded class is the last category of the list,
`void` for the empty list. -/
theorem handler_hierarchy_exception_type {Cls : Type} (Cs : List Cls) :
    (aux.handler_hierarchy Cs).exception_type = Cs.getLast? := by
  induction Cs using List.reverseRecOn with
  | nil => rfl
  | append_singleton Cs c _ =>
    rw [handler_hierarchy_concat, List.getLast?_concat]
    rfl

/-- The constructors of the folded class compile exactly when every category
is related by `ordered` to the one that follows it in the list. -/
theorem constructible_iff_chain {Cls : Type} (T : Types Cls) (Cs : List Cls) :
    (aux.handler_hierarchy Cs).constructible T = true ↔ List.Chain' (ordered T) Cs := by
  induction Cs using List.reverseRecOn with
  | nil => simp [aux.handler_hierarchy, aux.Chain.constructible]
  | append_singleton Cs c ih =>
    rw [handler_hierarchy_concat, List.chain'_append]
    simp only [aux.Chain.constructible, Bool.and_eq_true, ih,
      handler_hierarchy_exception_type, List.chain'_singleton, true_and, List.head?_cons,
      Option.mem_def, Option.some.injEq, forall_eq']
    constructor
    · rintro ⟨h1, h2⟩
      refine ⟨h1, fun x hx => ?_⟩
      rw [hx] at h2
      simpa [is_base_of_void, ordered] using h2
    · rintro ⟨h1, h2⟩
      refine ⟨h1, ?_⟩
      cases hx : Cs.getLast? with
      | none => simp [is_base_of_void]
      | some x => simpa [is_base_of_void, ordered] using h2 x hx

/-- Two neighbours of a list whose neighbours are all related are related. -/
theorem chain_neighbours {α : Type} (R : α → α → Prop) :
    ∀ (l : List α), List.Chain' R l → ∀ (k : Nat) (a b : α),
      l[k]? = some a → l[k + 1]? = some b → R a b
  | [], _, k, a, b, ha, _ => by simp at ha
  | [_], _, k, a, b, _, hb => by simp at hb
  | x :: y :: l, h, k, a, b, ha, hb => by
    rw [List.chain'_cons] at h
    cases k with
    | zero =>
      simp only [List.getElem?_cons_zero, Option.some.injEq, zero_add,
        List.getElem?_cons_succ] at ha hb
      subst ha
      subst hb
      exact h.1
    | succ k =>
      simp only [List.getElem?_cons_succ] at ha hb
      exact chain_neighbours R (y :: l) h.2 k a b ha (by simpa using hb)

/-- A list whose neighbours are all related is a chain. -/
theorem neighbours_chain {α : Type} (R : α → α → Prop) :
    ∀ (l : List α), (∀ (k : Nat) (a b : α), l[k]? = some a → l[k + 1]? = some b → R a b) →
      List.Chain' R l
  | [], _ => List.chain'_nil
  | [_], _ => List.chain'_singleton _
  | x :: y :: l, h => by
    rw [List.chain'_cons]
    refine ⟨h 0 x y rfl (by simp), neighbours_chain R (y :: l) fun k a b ha hb => ?_⟩
    exact h (k + 1) a b (by simpa using ha) (by simpa using hb)

/-- The first call the chain makes. Either some category takes the failure,
and then the first call of the handling action is made by the first level whose
category takes it, with that failure (and when the handling action always
returns, this is the only call and the chain returns); or no category takes it,
no call is made and the failure leaves the chain. -/
theorem call_cases {Cls σ : Type} (T : Types Cls) (handler : Handler Cls σ)
    (f : Failure Cls) (s : σ) (Cs : List Cls) :
    (∃ (k : Nat) (c : Cls), Cs[k]? = some c ∧ catches T c f = true ∧
        (∀ (j : Nat) (d : Cls), j < k → Cs[j]? = some d → catches T d f = false) ∧
        (∃ rest, (exception_handler.call T handler Cs (some f) s).calls = (c, f) :: rest) ∧
        ((∀ c g s, (handler c g s).1 = Outcome.returned) →
          (exception_handler.call T handler Cs (some f) s).outcome = Outcome.returned ∧
          (exception_handler.call T handler Cs (some f) s).state = (handler c f s).2 ∧
          (exception_handler.call T handler Cs (some f) s).calls = [(c, f)])) ∨
      ((∀ d ∈ Cs, catches T d f = false) ∧
        (exception_handler.call T handler Cs (some f) s).outcome = Outcome.raised f ∧
        (exception_handler.call T handler Cs (some f) s).state = s ∧
        (exception_handler.call T handler Cs (some f) s).calls = []) := by
  induction Cs using List.reverseRecOn with
  | nil =>
    right
    simp [exception_handler.call, exception_handler, aux.handler_hierarchy, aux.Chain.call]
  | append_singleton Cs c0 ih =>
    have hstep : exception_handler.call T handler (Cs ++ [c0]) (some f) s =
        aux.Chain.call T handler
          (aux.Chain.intermediate c0 (aux.handler_hierarchy Cs)) (some f) s := by
      simp [exception_handler.call, exception_handler, handler_hierarchy_concat]
    have hbase : exception_handler.call T handler Cs (some f) s =
        aux.Chain.call T handler (aux.handler_hierarchy Cs) (some f) s := rfl
    rw [hstep]
    rw [hbase] at ih
    simp only [aux.Chain.call]
    generalize aux.Chain.call T handler (aux.handler_hierarchy Cs) (some f) s = r at ih
    rcases ih with ⟨k, c, hk, hc, hfirst, ⟨rest, hcalls⟩, hfull⟩ | ⟨hnone, hout, hst, hcalls⟩
    · left
      have hklt : k < Cs.length := by
        rcases List.getElem?_eq_some.1 hk with ⟨h, _⟩
        exact h
      refine ⟨k, c, ?_, hc, ?_, ?_, ?_⟩
      · rw [List.getElem?_append_left hklt]
        exact hk
      · intro j d hj hd
        rw [List.getElem?_append_left (lt_trans hj hklt)] at hd
        exact hfirst j d hj hd
      · cases hro : r.outcome with
        | returned => exact ⟨rest, hcalls⟩
        | terminated => exact ⟨rest, hcalls⟩
        | raised g =>
          by_cases hg : catches T c0 g = true
          · simp only [hg, if_true]
            exact ⟨rest ++ [(c0, g)], by simp [hcalls]⟩
          · simp only [hg]
            exact ⟨rest, hcalls⟩
      · intro hret
        obtain ⟨h1, h2, h3⟩ := hfull hret
        simp only [h1]
        exact ⟨trivial, h2, h3⟩
    · by_cases hg : catches T c0 f = true
      · left
        refine ⟨Cs.length, c0, List.getElem?_concat_length Cs c0, hg, ?_, ?_, ?_⟩
        · intro j d hj hd
          rw [List.getElem?_append_left hj] at hd
          exact hnone d (List.mem_iff_getElem?.2 ⟨j, hd⟩)
        · simp only [hout, hg, if_true, hcalls, List.nil_append]
          exact ⟨[], rfl⟩
        · intro hret
          simp only [hout, hg, if_true, hcalls, List.nil_append, hst]
          exact ⟨hret c0 f s, trivial, trivial⟩
      · right
        refine ⟨?_, ?_⟩
        · intro d hd
          rcases List.mem_append.1 hd with h | h
          · exact hnone d h
          · rw [List.mem_singleton.1 h]
            simpa using hg
        · simp only [hout, hg]
          exact ⟨hout, hst, hcalls⟩

/-- The outermost level of the chain over a list with one more category: the
call operator of `intermediate` over the chain of the list before it. -/
theorem call_concat {Cls σ : Type} (T : Types Cls) (handler : Handler Cls σ)
    (Cs : List Cls) (c : Cls) (current : Option (Failure Cls)) (s : σ) :
    exception_handler.call T handler (Cs ++ [c]) current s =
      aux.Chain.call T handler (aux.Chain.intermediate c (exception_handler Cs)) current s := by
  simp [exception_handler.call, exception_handler, handler_hierarchy_concat]

/-- A failure that leaves the inner levels is all the outer levels see: when
the chain over `Cs₁` ends by raising `g`, the chain over `Cs₁ ++ Cs₂` goes on as
the chain over `Cs₂` entered with `g` and the state reached. -/
theorem call_append_of_raised {Cls σ : Type} (T : Types Cls) (handler : Handler Cls σ)
    (Cs₁ : List Cls) (current : Option (Failure Cls)) (s : σ) (g : Failure Cls)
    (hg : (exception_handler.call T handler Cs₁ current s).outcome = Outcome.raised g)
    (Cs₂ : List Cls) :
    exception_handler.call T handler (Cs₁ ++ Cs₂) current s =
      { outcome := (exception_handler.call T handler Cs₂ (some g)
          (exception_handler.call T handler Cs₁ current s).state).outcome,
        state := (exception_handler.call T handler Cs₂ (some g)
          (exception_handler.call T handler Cs₁ current s).state).state,
        calls := (exception_handler.call T handler Cs₁ current s).calls ++
          (exception_handler.call T handler Cs₂ (some g)
            (exception_handler.call T handler Cs₁ current s).state).calls } := by
  induction Cs₂ using List.reverseRecOn with
  | nil =>
    have hnil : ∀ st : σ, exception_handler.call T handler [] (some g) st =
        { outcome := Outcome.raised g, state := st, calls := [] } := fun _ => rfl
    rw [hnil, List.append_nil, List.append_nil]
    generalize exception_handler.call T handler Cs₁ current s = r at hg
    cases r
    simp only at hg
    simp [hg]
  | append_singleton Cs₂ c ih =>
    rw [← List.append_assoc, call_concat, call_concat]
    have hl : aux.Chain.call T handler (exception_handler (Cs₁ ++ Cs₂)) current s =
        exception_handler.call T handler (Cs₁ ++ Cs₂) current s := rfl
    have hr : ∀ st : σ, aux.Chain.call T handler (exception_handler Cs₂) (some g) st =
        exception_handler.call T handler Cs₂ (some g) st := fun _ => rfl
    simp only [aux.Chain.call, hl, hr]
    rw [ih]
    generalize exception_handler.call T handler Cs₂ (some g)
      (exception_handler.call T handler Cs₁ current s).state = r₂
    cases hro : r₂.outcome with
    | returned => simp [hro]
    | terminated => simp [hro]
    | raised e =>
      by_cases he : catches T c e = true
      · simp [he]
      · simp [he, hro]

/-- The fold over the reversed declared list is the nesting with the first
declared category outermost. -/
theorem handler_maker_eq_nesting {Cls : Type} (Args : List Cls) :
    aux.handler_maker Args = declared_nesting Args := by
  induction Args with
  | nil => rfl
  | cons a rest ih =>
    have h : aux.handler_maker (a :: rest) =
        aux.Chain.intermediate a (aux.handler_maker rest) := by
      simp [aux.handler_maker, exception_handler, handler_hierarchy_concat]
    rw [h, ih]
    rfl

/-! ## Theorems: the chain -/

/-- C2, as stated, fails: the list runtime_error, logic_error, range_error
passes the build-time check, a thrown `range_error` matches the declared
`range_error`, yet the handling action is called at the level of
`runtime_error`, a strict supertype of `range_error`. -/
theorem accepted_list_delivers_at_supertype :
    exception_handler.accepted stdTypes
        [StdCls.runtime_error, StdCls.logic_error, StdCls.range_error] = true ∧
      catches stdTypes StdCls.range_error range_failure = true ∧
      (exception_handler.call stdTypes quiet
        [StdCls.runtime_error, StdCls.logic_error, StdCls.range_error]
        (some range_failure) ()).calls = [(StdCls.runtime_error, range_failure)] ∧
      StdCls.range_error ≠ StdCls.runtime_error ∧
      stdTypes.is_base_of StdCls.runtime_error StdCls.range_error = true := by
  refine ⟨by decide, by decide, rfl, by decide, by decide⟩

/-- C2, amended: for every category list in which no category is the same as
or a base of any later one (all pairs), and every failure that matches at least
one declared category, the list passes the build-time check, the first call of
the handling action is made with that failure at the first declared category
it matches, and that category is not a strict supertype of any other declared
category the failure matches. -/
theorem delivered_at_most_specific {Cls σ : Type} (T : Types Cls) (handler : Handler Cls σ)
    (Cs : List Cls) (f : Failure Cls) (s : σ)
    (hp : Cs.Pairwise (fun a b => T.is_base_of a b = false))
    (hm : ∃ c ∈ Cs, catches T c f = true) :
    exception_handler.accepted T Cs = true ∧
      ∃ (k : Nat) (c : Cls) (rest : List (Cls × Failure Cls)),
        Cs[k]? = some c ∧ catches T c f = true ∧
        (∀ (j : Nat) (d : Cls), j < k → Cs[j]? = some d → catches T d f = false) ∧
        (exception_handler.call T handler Cs (some f) s).calls = (c, f) :: rest ∧
        ∀ d ∈ Cs, catches T d f = true → ¬ (d ≠ c ∧ T.is_base_of c d = true) := by
  refine ⟨(constructible_iff_chain T Cs).2 (List.Pairwise.chain' hp), ?_⟩
  rcases call_cases T handler f s Cs with
    ⟨k, c, hk, hc, hfirst, ⟨rest, hcalls⟩, _⟩ | ⟨hnone, _⟩
  · refine ⟨k, c, rest, hk, hc, hfirst, hcalls, ?_⟩
    rintro d hd hdf ⟨hne, hbase⟩
    obtain ⟨j, hj⟩ := List.mem_iff_getElem?.1 hd
    rcases lt_trichotomy j k with hlt | heq | hgt
    · have := hfirst j d hlt hj
      rw [hdf] at this
      exact Bool.noConfusion this
    · subst heq
      rw [hk] at hj
      exact hne (Option.some.inj hj).symm
    · obtain ⟨hk', hkc⟩ := List.getElem?_eq_some.1 hk
      obtain ⟨hj', hjd⟩ := List.getElem?_eq_some.1 hj
      have := List.pairwise_iff_getElem.1 hp k j hk' hj' hgt
      rw [hkc, hjd, hbase] at this
      exact Bool.noConfusion this
  · obtain ⟨c, hc, hcf⟩ := hm
    have := hnone c hc
    rw [hcf] at this
    exact Bool.noConfusion this

/-- C2, amended, at the list range_error, runtime_error, exception and a thrown
`range_error`. -/
theorem delivered_at_most_specific_witness :
    exception_handler.accepted stdTypes
        [StdCls.range_error, StdCls.runtime_error, StdCls.exception] = true ∧
      ∃ (k : Nat) (c : StdCls) (rest : List (StdCls × Failure StdCls)),
        [StdCls.range_error, StdCls.runtime_error, StdCls.exception][k]? = some c ∧
        catches stdTypes c range_failure = true ∧
        (∀ (j : Nat) (d : StdCls), j < k →
          [StdCls.range_error, StdCls.runtime_error, StdCls.exception][j]? = some d →
          catches stdTypes d range_failure = false) ∧
        (exception_handler.call stdTypes quiet
          [StdCls.range_error, StdCls.runtime_error, StdCls.exception]
          (some range_failure) ()).calls = (c, range_failure) :: rest ∧
        ∀ d ∈ [StdCls.range_error, StdCls.runtime_error, StdCls.exception],
          catches stdTypes d range_failure = true →
          ¬ (d ≠ c ∧ stdTypes.is_base_of c d = true) :=
  delivered_at_most_specific stdTypes quiet
    [StdCls.range_error, StdCls.runtime_error, StdCls.exception] range_failure ()
    (by decide) ⟨StdCls.runtime_error, by decide, by decide⟩

/-- C3, as stated, fails: the list runtime_error, logic_error, range_error is
accepted at build time although its first category is a supertype of its
third. -/
theorem accepted_list_with_distant_supertype :
    exception_handler.accepted stdTypes
        [StdCls.runtime_error, StdCls.logic_error, StdCls.range_error] = true ∧
      [StdCls.runtime_error, StdCls.logic_error, StdCls.range_error][0]? =
        some StdCls.runtime_error ∧
      [StdCls.runtime_error, StdCls.logic_error, StdCls.range_error][2]? =
        some StdCls.range_error ∧
      stdTypes.is_base_of StdCls.runtime_error StdCls.range_error = true := by
  decide

/-- C3, amended: if the construction of the chain over C1..CN is accepted at
build time then for every adjacent pair the earlier category is neither the
same class as nor a base of the one right after it. -/
theorem accepted_adjacent_not_base {Cls : Type} (T : Types Cls) (Cs : List Cls)
    (h : exception_handler.accepted T Cs = true) (k : Nat) (a b : Cls)
    (ha : Cs[k]? = some a) (hb : Cs[k + 1]? = some b) :
    T.is_base_of a b = false :=
  chain_neighbours (ordered T) Cs ((constructible_iff_chain T Cs).1 h) k a b ha hb

/-- C3, amended, at the list range_error, runtime_error and its only adjacent
pair. -/
theorem accepted_adjacent_not_base_witness :
    exception_handler.accepted stdTypes [StdCls.range_error, StdCls.runtime_error] = true ∧
      stdTypes.is_base_of StdCls.range_error StdCls.runtime_error = false :=
  ⟨by decide,
    accepted_adjacent_not_base stdTypes [StdCls.range_error, StdCls.runtime_error]
      (by decide) 0 StdCls.range_error StdCls.runtime_error rfl rfl⟩

/-- C4, as stated, fails in its general part: `make` accepts the declared list
range_error, logic_error, runtime_error although its third category is a
supertype of its first. -/
theorem make_accepts_distant_supertype :
    exception.handler_factory_t.make_accepted stdTypes
        [StdCls.range_error, StdCls.logic_error, StdCls.runtime_error] = true ∧
      stdTypes.is_base_of StdCls.runtime_error StdCls.range_error = true := by
  decide

/-- C4, amended: for every two categories A and B where A is a subtype of B,
`make` rejects the declared list A, B at build time; more generally it rejects
every declared list in which some category is a supertype of the one declared
right before it. -/
theorem make_rejects_supertype_after_subtype {Cls : Type} (T : Types Cls) (A B : Cls)
    (pre post : List Cls) (h : T.is_base_of B A = true) :
    exception.handler_factory_t.make_accepted T [A, B] = false ∧
      exception.handler_factory_t.make_accepted T (pre ++ A :: B :: post) = false := by
  have key : ∀ l₁ l₂ : List Cls,
      exception.handler_factory_t.make_accepted T (l₁ ++ A :: B :: l₂) = false := by
    intro l₁ l₂
    cases hacc : exception.handler_factory_t.make_accepted T (l₁ ++ A :: B :: l₂) with
    | false => rfl
    | true =>
      have hch := (constructible_iff_chain T (l₁ ++ A :: B :: l₂).reverse).1 hacc
      rw [List.chain'_reverse, List.chain'_append_cons_cons] at hch
      have hAB : T.is_base_of B A = false := hch.2.1
      rw [h] at hAB
      exact Bool.noConfusion hAB
  exact ⟨key [] [], key pre post⟩

/-- C4, amended, at A = range_error and B = runtime_error. -/
theorem make_rejects_supertype_after_subtype_witness :
    stdTypes.is_base_of StdCls.runtime_error StdCls.range_error = true ∧
      exception.handler_factory_t.make_accepted stdTypes
        [StdCls.range_error, StdCls.runtime_error] = false ∧
      exception.handler_factory_t.make_accepted stdTypes
        ([StdCls.foreign] ++ StdCls.range_error :: StdCls.runtime_error ::
          [StdCls.logic_error]) = false :=
  ⟨by decide,
    make_rejects_supertype_after_subtype stdTypes StdCls.range_error StdCls.runtime_error
      [StdCls.foreign] [StdCls.logic_error] (by decide)⟩

/-- C5, as stated, fails: over the accepted list with the single category
runtime_error, a thrown `out_of_range` matches no declared category, the
handling action is not called and the failure leaves the chain. -/
theorem unmatched_failure_escapes :
    exception_handler.accepted stdTypes [StdCls.runtime_error] = true ∧
      (exception_handler.call stdTypes quiet [StdCls.runtime_error]
        (some logic_failure) ()).outcome = Outcome.raised logic_failure ∧
      (exception_handler.call stdTypes quiet [StdCls.runtime_error]
        (some logic_failure) ()).outcome ≠ Outcome.returned := by
  refine ⟨by decide, rfl, ?_⟩
  intro h
  exact Outcome.noConfusion h

/-- C5, amended: for every declared category list, every handling action that
returns normally and every failure raised by the protected call, the chain
returns normally exactly when the failure matches a declared category; a
failure that matches none leaves the chain. -/
theorem chain_returns_iff_matched {Cls σ : Type} (T : Types Cls) (handler : Handler Cls σ)
    (Cs : List Cls) (f : Failure Cls) (s : σ)
    (hret : ∀ c g s, (handler c g s).1 = Outcome.returned) :
    ((exception_handler.call T handler Cs (some f) s).outcome = Outcome.returned ↔
        ∃ c ∈ Cs, catches T c f = true) ∧
      ((∀ c ∈ Cs, catches T c f = false) →
        (exception_handler.call T handler Cs (some f) s).outcome = Outcome.raised f) := by
  rcases call_cases T handler f s Cs with
    ⟨k, c, hk, hc, _, _, hfull⟩ | ⟨hnone, hout, _, _⟩
  · have hmem : c ∈ Cs := List.mem_iff_getElem?.2 ⟨k, hk⟩
    refine ⟨⟨fun _ => ⟨c, hmem, hc⟩, fun _ => (hfull hret).1⟩, fun hno => ?_⟩
    have := hno c hmem
    rw [hc] at this
    exact Bool.noConfusion this
  · refine ⟨⟨fun h => ?_, fun ⟨c, hmem, hc⟩ => ?_⟩, fun _ => hout⟩
    · rw [hout] at h
      exact Outcome.noConfusion h
    · have := hnone c hmem
      rw [hc] at this
      exact Bool.noConfusion this

/-- C5, amended, at the list range_error, runtime_error, the handling action
`quiet` and a thrown `range_error`. -/
theorem chain_returns_iff_matched_witness :
    (∀ c g s, (quiet c g s).1 = Outcome.returned) ∧
      ((exception_handler.call stdTypes quiet [StdCls.range_error, StdCls.runtime_error]
          (some range_failure) ()).outcome = Outcome.returned ↔
        ∃ c ∈ [StdCls.range_error, StdCls.runtime_error],
          catches stdTypes c range_failure = true) ∧
      ((∀ c ∈ [StdCls.range_error, StdCls.runtime_error],
          catches stdTypes c range_failure = false) →
        (exception_handler.call stdTypes quiet [StdCls.range_error, StdCls.runtime_error]
          (some range_failure) ()).outcome = Outcome.raised range_failure) :=
  ⟨fun _ _ _ => rfl,
    chain_returns_iff_matched stdTypes quiet [StdCls.range_error, StdCls.runtime_error]
      range_failure () (fun _ _ _ => rfl)⟩

/-- C9: for every chain built by `exception_handler` over C1..CN and every
handling action that returns normally: if the failure matches some declared
category, then at the smallest position k whose category Ck takes the failure
the handling action is called, that is its only call, it is made with that
failure, and the chain returns normally; if the failure matches no declared
category the handling action is not called, its state is untouched and the
same failure is raised again out of the chain. -/
theorem caught_at_first_matching_level {Cls σ : Type} (T : Types Cls)
    (handler : Handler Cls σ) (Cs : List Cls) (f : Failure Cls) (s : σ)
    (hret : ∀ c g s, (handler c g s).1 = Outcome.returned) :
    ((∃ c ∈ Cs, catches T c f = true) →
        ∃ (k : Nat) (c : Cls), Cs[k]? = some c ∧ catches T c f = true ∧
          (∀ (j : Nat) (d : Cls), j < k → Cs[j]? = some d → catches T d f = false) ∧
          (exception_handler.call T handler Cs (some f) s).calls = [(c, f)] ∧
          (exception_handler.call T handler Cs (some f) s).state = (handler c f s).2 ∧
          (exception_handler.call T handler Cs (some f) s).outcome = Outcome.returned) ∧
      ((∀ c ∈ Cs, catches T c f = false) →
        (exception_handler.call T handler Cs (some f) s).calls = [] ∧
          (exception_handler.call T handler Cs (some f) s).state = s ∧
          (exception_handler.call T handler Cs (some f) s).outcome = Outcome.raised f) := by
  rcases call_cases T handler f s Cs with
    ⟨k, c, hk, hc, hfirst, _, hfull⟩ | ⟨hnone, hout, hst, hcalls⟩
  · obtain ⟨h1, h2, h3⟩ := hfull hret
    refine ⟨fun _ => ⟨k, c, hk, hc, hfirst, h3, h2, h1⟩, fun hno => ?_⟩
    have := hno c (List.mem_iff_getElem?.2 ⟨k, hk⟩)
    rw [hc] at this
    exact Bool.noConfusion this
  · refine ⟨fun ⟨c, hmem, hc⟩ => ?_, fun _ => ⟨hcalls, hst, hout⟩⟩
    have := hnone c hmem
    rw [hc] at this
    exact Bool.noConfusion this

/-- C9 at the list range_error, runtime_error, exception, the handling action
`quiet` and a thrown `out_of_range`, which only the third category takes. -/
theorem caught_at_first_matching_level_witness :
    (∀ c g s, (quiet c g s).1 = Outcome.returned) ∧
      ∃ (k : Nat) (c : StdCls),
        [StdCls.range_error, StdCls.runtime_error, StdCls.exception][k]? = some c ∧
        catches stdTypes c logic_failure = true ∧
        (∀ (j : Nat) (d : StdCls), j < k →
          [StdCls.range_error, StdCls.runtime_error, StdCls.exception][j]? = some d →
          catches stdTypes d logic_failure = false) ∧
        (exception_handler.call stdTypes quiet
          [StdCls.range_error, StdCls.runtime_error, StdCls.exception]
          (some logic_failure) ()).calls = [(c, logic_failure)] ∧
        (exception_handler.call stdTypes quiet
          [StdCls.range_error, StdCls.runtime_error, StdCls.exception]
          (some logic_failure) ()).state = (quiet c logic_failure ()).2 ∧
        (exception_handler.call stdTypes quiet
          [StdCls.range_error, StdCls.runtime_error, StdCls.exception]
          (some logic_failure) ()).outcome = Outcome.returned :=
  ⟨fun _ _ _ => rfl,
    (caught_at_first_matching_level stdTypes quiet
      [StdCls.range_error, StdCls.runtime_error, StdCls.exception] logic_failure ()
      (fun _ _ _ => rfl)).1 ⟨StdCls.exception, by decide, by decide⟩⟩

/-- C11: the handler `make<A1, ..., AN>()` builds is the chain
`exception_handler` builds over the reversed list AN, ..., A1, and this is the
nesting with A1 outermost and AN innermost; its call operator is the one of
that chain, so a failure that matches declared categories is first handed to
the handling action at the category declared last among those it matches. -/
theorem make_is_chain_over_reversed_list {Cls σ : Type} (T : Types Cls)
    (handler : Handler Cls σ) (Args : List Cls) (f : Failure Cls) (s : σ)
    (hm : ∃ c ∈ Args, catches T c f = true) :
    aux.handler_maker Args = exception_handler Args.reverse ∧
      aux.handler_maker Args = declared_nesting Args ∧
      exception.handler_factory_t.make_call T handler Args (some f) s =
        exception_handler.call T handler Args.reverse (some f) s ∧
      ∃ (k : Nat) (c : Cls) (rest : List (Cls × Failure Cls)),
        Args[k]? = some c ∧ catches T c f = true ∧
        (∀ (j : Nat) (d : Cls), k < j → Args[j]? = some d → catches T d f = false) ∧
        (exception.handler_factory_t.make_call T handler Args (some f) s).calls =
          (c, f) :: rest := by
  refine ⟨rfl, handler_maker_eq_nesting Args, rfl, ?_⟩
  have hcall : exception.handler_factory_t.make_call T handler Args (some f) s =
      exception_handler.call T handler Args.reverse (some f) s := rfl
  rw [hcall]
  rcases call_cases T handler f s Args.reverse with
    ⟨k, c, hk, hc, hfirst, ⟨rest, hcalls⟩, _⟩ | ⟨hnone, _⟩
  · have hklt : k < Args.length := by
      rcases List.getElem?_eq_some.1 hk with ⟨h, _⟩
      simpa using h
    refine ⟨Args.length - 1 - k, c, rest, ?_, hc, ?_, hcalls⟩
    · rw [← List.getElem?_reverse hklt]
      exact hk
    · intro j d hj hd
      have hjlt : j < Args.length := by
        rcases List.getElem?_eq_some.1 hd with ⟨h, _⟩
        exact h
      refine hfirst (Args.length - 1 - j) d (by omega) ?_
      rw [List.getElem?_reverse' (Args.length - 1 - j) j (by omega)]
      exact hd
  · obtain ⟨c, hmem, hcf⟩ := hm
    have := hnone c (List.mem_reverse.2 hmem)
    rw [hcf] at this
    exact Bool.noConfusion this

/-- C11 at `make<exception, runtime_error, range_error>` and a thrown
`range_error`, which all three declared categories match. -/
theorem make_is_chain_over_reversed_list_witness :
    (∃ c ∈ [StdCls.exception, StdCls.runtime_error, StdCls.range_error],
        catches stdTypes c range_failure = true) ∧
      aux.handler_maker [StdCls.exception, StdCls.runtime_error, StdCls.range_error] =
        exception_handler
          [StdCls.exception, StdCls.runtime_error, StdCls.range_error].reverse ∧
      aux.handler_maker [StdCls.exception, StdCls.runtime_error, StdCls.range_error] =
        declared_nesting [StdCls.exception, StdCls.runtime_error, StdCls.range_error] ∧
      exception.handler_factory_t.make_call stdTypes quiet
          [StdCls.exception, StdCls.runtime_error, StdCls.range_error]
          (some range_failure) () =
        exception_handler.call stdTypes quiet
          [StdCls.exception, StdCls.runtime_error, StdCls.range_error].reverse
          (some range_failure) () ∧
      ∃ (k : Nat) (c : StdCls) (rest : List (StdCls × Failure StdCls)),
        [StdCls.exception, StdCls.runtime_error, StdCls.range_error][k]? = some c ∧
        catches stdTypes c range_failure = true ∧
        (∀ (j : Nat) (d : StdCls), k < j →
          [StdCls.exception, StdCls.runtime_error, StdCls.range_error][j]? = some d →
          catches stdTypes d range_failure = false) ∧
        (exception.handler_factory_t.make_call stdTypes quiet
          [StdCls.exception, StdCls.runtime_error, StdCls.range_error]
          (some range_failure) ()).calls = (c, range_failure) :: rest :=
  ⟨⟨StdCls.exception, by decide, by decide⟩,
    make_is_chain_over_reversed_list stdTypes quiet
      [StdCls.exception, StdCls.runtime_error, StdCls.range_error] range_failure ()
      ⟨StdCls.exception, by decide, by decide⟩⟩

/-- C12: the build-time check of `exception_handler` over C1..CN accepts the
list if and only if for every adjacent pair `std::is_base_of` of the earlier
category and the one right after it is false; for classes, where
`std::is_base_of` holds of a class and itself, this says the earlier category
is neither the same class as the later one nor a base class of it. A list of a
single category is always accepted, and two lists with the same adjacent pairs
are accepted alike: no other pair is examined. -/
theorem accepted_iff_adjacent_not_base {Cls : Type} (T : Types Cls) (Cs : List Cls) :
    (exception_handler.accepted T Cs = true ↔
        ∀ (k : Nat) (a b : Cls), Cs[k]? = some a → Cs[k + 1]? = some b →
          T.is_base_of a b = false) ∧
      ((∀ c, T.is_base_of c c = true) →
        (exception_handler.accepted T Cs = true ↔
          ∀ (k : Nat) (a b : Cls), Cs[k]? = some a → Cs[k + 1]? = some b →
            a ≠ b ∧ ¬ (a ≠ b ∧ T.is_base_of a b = true))) ∧
      (∀ c : Cls, exception_handler.accepted T [c] = true) ∧
      (∀ Ds : List Cls, Ds.zip Ds.tail = Cs.zip Cs.tail →
        exception_handler.accepted T Ds = exception_handler.accepted T Cs) := by
  have hiff : ∀ l : List Cls, exception_handler.accepted T l = true ↔
      ∀ (k : Nat) (a b : Cls), l[k]? = some a → l[k + 1]? = some b →
        T.is_base_of a b = false := by
    intro l
    refine ⟨fun h k a b ha hb =>
      chain_neighbours (ordered T) l ((constructible_iff_chain T l).1 h) k a b ha hb,
      fun h => (constructible_iff_chain T l).2 ?_⟩
    exact neighbours_chain (ordered T) l h
  have hzip : ∀ l : List Cls, (∀ (k : Nat) (a b : Cls), l[k]? = some a →
      l[k + 1]? = some b → T.is_base_of a b = false) ↔
      ∀ p ∈ l.zip l.tail, T.is_base_of p.1 p.2 = false := by
    intro l
    constructor
    · intro h p hp
      obtain ⟨k, hk⟩ := List.mem_iff_getElem?.1 hp
      rw [List.getElem?_zip_eq_some] at hk
      refine h k p.1 p.2 hk.1 ?_
      have := hk.2
      rwa [List.getElem?_tail] at this
    · intro h k a b ha hb
      refine h (a, b) (List.mem_iff_getElem?.2 ⟨k, ?_⟩)
      rw [List.getElem?_zip_eq_some]
      exact ⟨ha, by rw [List.getElem?_tail]; exact hb⟩
  refine ⟨hiff Cs, fun hrefl => ?_, fun c => by simp [hiff], fun Ds hD => ?_⟩
  · rw [hiff Cs]
    constructor
    · intro h k a b ha hb
      have hab := h k a b ha hb
      refine ⟨fun heq => ?_, fun hp => ?_⟩
      · rw [heq, hrefl b] at hab
        exact Bool.noConfusion hab
      · rw [hp.2] at hab
        exact Bool.noConfusion hab
    · intro h k a b ha hb
      obtain ⟨hne, hnp⟩ := h k a b ha hb
      cases hab : T.is_base_of a b with
      | false => rfl
      | true => exact absurd ⟨hne, hab⟩ hnp
  · have h1 := (hiff Ds).trans (hzip Ds)
    have h2 := (hiff Cs).trans (hzip Cs)
    rw [hD] at h1
    exact Bool.eq_iff_iff.2 (h1.trans h2.symm)

/-- C12 at the concrete hierarchy, where `std::is_base_of` holds of every
class and itself, and the list range_error, runtime_error, exception. -/
theorem accepted_iff_adjacent_not_base_witness :
    (∀ c, stdTypes.is_base_of c c = true) ∧
      (exception_handler.accepted stdTypes
          [StdCls.range_error, StdCls.runtime_error, StdCls.exception] = true ↔
        ∀ (k : Nat) (a b : StdCls),
          [StdCls.range_error, StdCls.runtime_error, StdCls.exception][k]? = some a →
          [StdCls.range_error, StdCls.runtime_error, StdCls.exception][k + 1]? = some b →
          a ≠ b ∧ ¬ (a ≠ b ∧ stdTypes.is_base_of a b = true)) :=
  ⟨fun c => by cases c <;> rfl,
    (accepted_iff_adjacent_not_base stdTypes
      [StdCls.range_error, StdCls.runtime_error, StdCls.exception]).2.1
      (fun c => by cases c <;> rfl)⟩

/-- C13: for every chain over C1..CN, written as the inner levels, the level
k with category `c`, and the outer levels: if a failure `e` reaches level k,
level k catches it and the handling action raises `g` while handling it, then
the rest of the run is the run of the outer levels alone on `g`. The calls made
are those of the inner levels, the call at level k, and the calls the outer
levels make on `g`; outcome and state are those of the outer levels. Hence
neither level k nor an inner level sees `g`, whatever `g` matches there: if no
outer category matches `g` it leaves the chain without a further call, and if
one does the handling action is called again, with `g`, at the first outer
level whose category matches. -/
theorem handler_failure_goes_to_outer_levels {Cls σ : Type} (T : Types Cls)
    (handler : Handler Cls σ) (inner : List Cls) (c : Cls) (outer : List Cls)
    (f e g : Failure Cls) (s : σ)
    (hreach : (exception_handler.call T handler inner (some f) s).outcome = Outcome.raised e)
    (hcatch : catches T c e = true)
    (hraise : (handler c e (exception_handler.call T handler inner (some f) s).state).1 =
      Outcome.raised g) :
    (exception_handler.call T handler (inner ++ c :: outer) (some f) s).calls =
        (exception_handler.call T handler inner (some f) s).calls ++ (c, e) ::
          (exception_handler.call T handler outer (some g)
            (handler c e (exception_handler.call T handler inner (some f) s).state).2).calls ∧
      (exception_handler.call T handler (inner ++ c :: outer) (some f) s).outcome =
        (exception_handler.call T handler outer (some g)
          (handler c e (exception_handler.call T handler inner (some f) s).state).2).outcome ∧
      (exception_handler.call T handler (inner ++ c :: outer) (some f) s).state =
        (exception_handler.call T handler outer (some g)
          (handler c e (exception_handler.call T handler inner (some f) s).state).2).state ∧
      ((∀ d ∈ outer, catches T d g = false) →
        (exception_handler.call T handler (inner ++ c :: outer) (some f) s).calls =
            (exception_handler.call T handler inner (some f) s).calls ++ [(c, e)] ∧
          (exception_handler.call T handler (inner ++ c :: outer) (some f) s).outcome =
            Outcome.raised g) ∧
      ((∃ d ∈ outer, catches T d g = true) →
        ∃ (k : Nat) (d : Cls) (rest : List (Cls × Failure Cls)),
          outer[k]? = some d ∧ catches T d g = true ∧
          (∀ (j : Nat) (d' : Cls), j < k → outer[j]? = some d' → catches T d' g = false) ∧
          (exception_handler.call T handler (inner ++ c :: outer) (some f) s).calls =
            (exception_handler.call T handler inner (some f) s).calls ++ (c, e) ::
              (d, g) :: rest) := by
  have hlevel : exception_handler.call T handler (inner ++ [c]) (some f) s =
      { outcome := Outcome.raised g,
        state := (handler c e (exception_handler.call T handler inner (some f) s).state).2,
        calls := (exception_handler.call T handler inner (some f) s).calls ++ [(c, e)] } := by
    rw [call_concat]
    have hb : aux.Chain.call T handler (exception_handler inner) (some f) s =
        exception_handler.call T handler inner (some f) s := rfl
    simp only [aux.Chain.call, hb, hreach, hcatch, if_true, hraise]
  have hsplit : inner ++ c :: outer = (inner ++ [c]) ++ outer := by simp
  have hwhole := call_append_of_raised T handler (inner ++ [c]) (some f) s g
    (by rw [hlevel]) outer
  rw [← hsplit, hlevel] at hwhole
  simp only [List.append_assoc, List.singleton_append] at hwhole
  rw [hwhole]
  refine ⟨rfl, rfl, rfl, fun hno => ?_, fun hyes => ?_⟩
  · rcases call_cases T handler g
        (handler c e (exception_handler.call T handler inner (some f) s).state).2 outer with
      ⟨k, d, hk, hd, _⟩ | ⟨_, hout, _, hcalls⟩
    · have := hno d (List.mem_iff_getElem?.2 ⟨k, hk⟩)
      rw [hd] at this
      exact Bool.noConfusion this
    · simp only [hcalls, hout]
      exact ⟨trivial, trivial⟩
  · rcases call_cases T handler g
        (handler c e (exception_handler.call T handler inner (some f) s).state).2 outer with
      ⟨k, d, hk, hd, hfirst, ⟨rest, hcalls⟩, _⟩ | ⟨hnone, _⟩
    · refine ⟨k, d, rest, hk, hd, hfirst, ?_⟩
      simp only [hcalls]
    · obtain ⟨d, hmem, hdg⟩ := hyes
      have := hnone d hmem
      rw [hdg] at this
      exact Bool.noConfusion this

/-- C13 at the chain over runtime_error, exception, logic_error, a thrown
`range_error` and the handling action `thrower`: level 1 catches the
`range_error`, the handling action raises an `overflow_error`, which level 1
would match; it is handled at level 2 and not at level 1. -/
theorem handler_failure_goes_to_outer_levels_witness :
    (exception_handler.call stdTypes thrower [] (some range_failure) ()).outcome =
        Outcome.raised range_failure ∧
      catches stdTypes StdCls.runtime_error range_failure = true ∧
      catches stdTypes StdCls.runtime_error overflow_failure = true ∧
      (exception_handler.call stdTypes thrower
          ([] ++ StdCls.runtime_error :: [StdCls.exception, StdCls.logic_error])
          (some range_failure) ()).calls =
        (exception_handler.call stdTypes thrower [] (some range_failure) ()).calls ++
          (StdCls.runtime_error, range_failure) ::
            (exception_handler.call stdTypes thrower [StdCls.exception, StdCls.logic_error]
              (some overflow_failure)
              (thrower StdCls.runtime_error range_failure
                (exception_handler.call stdTypes thrower [] (some range_failure)
                  ()).state).2).calls :=
  ⟨rfl, by decide, by decide,
    (handler_failure_goes_to_outer_levels stdTypes thrower [] StdCls.runtime_error
      [StdCls.exception, StdCls.logic_error] range_failure range_failure overflow_failure ()
      rfl (by decide) rfl).1⟩

end log

/-! ## Lemmas: the file sink -/

namespace sink

namespace file_t

end file_t

end sink

end blackhole
